import Mathlib

/-!
Shallow embedding of `src/app/histogram.py` (class `HistogramGenerator` and
module helpers) from the Content-Based-Video-Retrieval repository.

Conventions:
* floating-point values are modelled as rationals (`ℚ`);
* external collaborators (`cv2.calcHist`, `cv2.compareHist`,
  `scipy.stats.wasserstein_distance` / `energy_distance`, directory listing)
  are parameters of the embedded functions;
* a Python `ZeroDivisionError` is modelled by an `Option` result (`none`);
* the process-wide class attribute `HistogramGenerator.results_array` is
  modelled by explicit state passing of a `List String`.
-/

namespace CBVR

/-! ### Shot boundary detector (`rgb_histogram_shot_boundary_detection`) -/

/-- One step of the detector loop body (histogram.py lines 518-522).
`isUnder` is the Python flag `is_under_threshold` (`true` = state BELOW).
Returns the updated flag and whether a boundary event was printed. -/
def sbStep (threshold : ℚ) (isUnder : Bool) (d : ℚ) : Bool × Bool :=
  if d > threshold ∧ isUnder then
    (false, true)
  else if d < threshold then
    (true, false)
  else
    (isUnder, false)

/-- Auxiliary runner: processes the remaining divergence values, threading the
frame counter and the `is_under_threshold` flag, collecting the 1-based frame
indices at which a boundary event is emitted. -/
def sbEventsAux (threshold : ℚ) (counter : ℕ) (isUnder : Bool) :
    List ℚ → List ℕ
  | [] => []
  | d :: ds =>
    let st := sbStep threshold isUnder d
    if st.2 then
      (counter + 1) :: sbEventsAux threshold (counter + 1) st.1 ds
    else
      sbEventsAux threshold (counter + 1) st.1 ds

/-- The detector over a whole per-pair divergence stream: initial state BELOW
(`is_under_threshold = True`), frame counter starting at 0 and incremented
before each pair is examined (histogram.py lines 474-522). -/
def sbEvents (threshold : ℚ) (ds : List ℚ) : List ℕ :=
  sbEventsAux threshold 0 true ds

/-! ### Frame sampler (`_get_frames_to_process`) -/

/-- Python `range(start, stop, step)` for a positive step: the ascending list
`start, start+step, start+2*step, …` of values `< stop`. -/
def pyRange (start stop step : ℕ) : List ℕ :=
  (List.range ((stop - start + step - 1) / step)).map (fun k => start + k * step)

/-- `_get_frames_to_process` (histogram.py lines 575-586): the sampled 1-based
frame indices `range(1, int(total_frames) + 1, math.ceil(fps))`.
`totalFrames` is `int(total_frames)`; the frame rate is a rational. -/
def getFramesToProcess (totalFrames : ℕ) (fps : ℚ) : List ℕ :=
  pyRange 1 (totalFrames + 1) (Int.ceil fps).toNat

/-! ### Per-frame histograms and `cv2.normalize`

`cv2.calcHist` (external) yields a vector of non-negative bin counts:
256 bins for grayscale and for each of the b/g/r channels, an `8 × 12 × 3`
grid for HSV.  `cv2.normalize(h, h)` is called with default arguments, i.e.
`alpha = 1, beta = 0, norm_type = NORM_L2`: it rescales the vector so that its
Euclidean (L2) norm is 1.  Over `ℚ` the scale factor `1 / ‖h‖₂` is generally
irrational, so normalization is embedded relationally: `l2NormalizeWith c h`
is the output when `c` satisfies `IsL2Scale c h`, the defining property of
`1 / ‖h‖₂`. -/

/-- Sum of squares of a list of bin values. -/
def sumSq (xs : List ℚ) : ℚ := (xs.map (fun x => x * x)).sum

/-- The rescaling performed by `cv2.normalize` with scale factor `c`. -/
def l2NormalizeWith (c : ℚ) (xs : List ℚ) : List ℚ := xs.map (fun x => c * x)

/-- `c` is the L2-normalizing factor of `xs`: positive, and squaring it
against the sum of squares gives 1 (i.e. `c = 1 / ‖xs‖₂`). -/
def IsL2Scale (c : ℚ) (xs : List ℚ) : Prop := 0 < c ∧ c * c * sumSq xs = 1

instance (c : ℚ) (xs : List ℚ) : Decidable (IsL2Scale c xs) := by
  unfold IsL2Scale; infer_instance

/-! ### Fingerprint aggregator

`generate_and_store_average_rgb_histogram` (lines 203-232) and
`generate_and_store_average_grayscale_histogram` (lines 234-265) both build
`avg_histogram = np.zeros(shape=(255, 1))` and loop `for i in range(0, 255)`,
averaging bin `i` of the per-frame histograms over all frames; note the
255-entry output against 256-bin per-frame histograms.
`generate_and_store_average_hsv_histogram` (lines 267-298) loops over the
full `8 × 12 × 3` grid.  A per-frame flat histogram is a `Fin 256 → ℚ`
(`.item(i)`), a per-frame HSV histogram a `Fin 8 → Fin 12 → Fin 3 → ℚ`.
When the frame list is empty, `bin_sum / len(hist)` raises
`ZeroDivisionError`; the `none` result models that fault. -/

/-- Number of bins requested from `cv2.calcHist` for gray and each colour
channel (histogram.py lines 83, 85, 130, 133: `[256]`). -/
def flatHistBins : ℕ := 256

/-- The averaging loop shared verbatim by the grayscale aggregator and by
each colour of the RGB aggregator: 255 output bins, bin `i` being the mean
over frames of bin `i`.  `none` models the `ZeroDivisionError` raised by
`bin_sum / len(hist)` on an empty frame list. -/
def averageFlatFingerprint (hists : List (Fin 256 → ℚ)) : Option (List ℚ) :=
  if hists.length = 0 then none
  else some ((List.finRange 255).map
    (fun i => (hists.map (fun h => h (Fin.castLE (by omega) i))).sum / hists.length))

/-- `generate_and_store_average_hsv_histogram`'s averaging loops
(lines 278-290): every bin `[h][s][v]` of the `8 × 12 × 3` grid is the mean
over frames; `none` models the `ZeroDivisionError` on an empty frame list. -/
def averageHsvFingerprint (hists : List (Fin 8 → Fin 12 → Fin 3 → ℚ)) :
    Option (Fin 8 → Fin 12 → Fin 3 → ℚ) :=
  if hists.length = 0 then none
  else some (fun h s v => (hists.map (fun x => x h s v)).sum / hists.length)

/-! ### Fingerprint store

Flat fingerprints are written with `np.savetxt(..., fmt='%f')` (fixed-point,
6 decimal places) and read back with `np.loadtxt`.  The HSV fingerprint is
written (lines 294-298) as a `# HSV Histogram shape: (8, 12, 3)` header, then
the 8 hue slices in order, each slice as 12 rows of 3 values via
`np.savetxt(file, arr_2d)` (default full-precision format), each followed by
a `# New slice` comment; `np.loadtxt` skips the comment lines and yields the
288 values in the same order, and the loader reshapes them to `(8, 12, 3)`
(lines 329-331 and 431-432). -/

/-- Fixed-point quantization of one value as printed by `fmt='%f'`
(6 decimal places, rounding to nearest). -/
def quantize6 (v : ℚ) : ℚ := (round (v * 1000000) : ℤ) / 1000000

/-- `np.savetxt(..., fmt='%f')` on a flat fingerprint: each value is stored
at 6-decimal fixed-point precision. -/
def saveFlatFingerprint (fp : List ℚ) : List ℚ := fp.map quantize6

/-- `np.loadtxt` on a flat fingerprint file: the stored values, in order. -/
def loadFlatFingerprint (stored : List ℚ) : List ℚ := stored

/-- The flat text content of the HSV fingerprint file (comment lines are
invisible to `np.loadtxt`): the 8 hue slices in order, each as 12 rows
(saturation) of 3 values (value axis), row-major. -/
def saveHsvFingerprint (fp : Fin 8 → Fin 12 → Fin 3 → ℚ) : List ℚ :=
  (List.finRange 8).flatMap (fun h =>
    (List.finRange 12).flatMap (fun s =>
      (List.finRange 3).map (fun v => fp h s v)))

/-- `np.loadtxt(...).reshape((8, 12, 3))`: reinterprets the flat 288-value
sequence as an `8 × 12 × 3` grid in row-major order; fails unless exactly
288 values are present. -/
def loadHsvFingerprint (flat : List ℚ) : Option (Fin 8 → Fin 12 → Fin 3 → ℚ) :=
  if hl : flat.length = 288 then
    some (fun h s v => flat.get
      ⟨(h : ℕ) * 36 + (s : ℕ) * 3 + (v : ℕ), by
        have hh := h.isLt; have hs := s.isLt; have hv := v.isLt; omega⟩)
  else none

/-! ### Comparison engine (`match_histograms`)

The gray/rgb branch (lines 341-409) iterates the six OpenCV comparison
constants `histcmp_methods = [HISTCMP_CORREL, HISTCMP_CHISQR,
HISTCMP_INTERSECT, HISTCMP_BHATTACHARYYA, HISTCMP_CHISQR_ALT,
HISTCMP_KL_DIV]`, whose numeric values are `m = 0, 1, 2, 3, 4, 5`.
`cv2.compareHist` is external; the engine sees one score per corpus entry,
so the winner-selection loop is embedded over a list of
`(filename, score)` pairs. -/

/-- The running-best update of lines 386-397, for `i > 0`: with
`m ∈ {0, 2}` (correlation, intersection) a later entry replaces the best on
a strictly greater score; with `m ∈ {1, 3, 4, 5}` (chi-square,
bhattacharyya, alternative chi-square, Kullback-Leibler divergence) on a
strictly smaller score; otherwise the best is kept. -/
def updateMatch (m : ℕ) (best entry : String × ℚ) : String × ℚ :=
  if (m = 0 ∨ m = 2) ∧ entry.2 > best.2 then entry
  else if (m = 1 ∨ m = 3 ∨ m = 4 ∨ m = 5) ∧ entry.2 < best.2 then entry
  else best

/-- The whole winner-selection loop for metric `m`: the running best is
seeded by the first corpus entry (`i == 0`, lines 386-388) and folded with
`updateMatch` over the rest; `none` on an empty corpus (the loop body never
sets a winner). -/
def findMatch (m : ℕ) : List (String × ℚ) → Option (String × ℚ)
  | [] => none
  | e :: es => some (es.foldl (updateMatch m) e)

/-- The HSV scoring loop of lines 433-441: starting from `comparison = 0`,
for every hue bin `h` and saturation bin `s` add the 1-dimensional distance
between the two fingerprints' length-3 value-axis slices at `(h, s)` —
`scipy.stats.wasserstein_distance` for the method
`"WASSERSTEIN DISTANCE (EMD)"`, `scipy.stats.energy_distance` for
`"ENERGY DISTANCE"` (both external, passed as `dW` / `dE`). -/
def hsvComparison (dW dE : (Fin 3 → ℚ) → (Fin 3 → ℚ) → ℚ) (method : String)
    (q c : Fin 8 → Fin 12 → Fin 3 → ℚ) : ℚ :=
  (List.finRange 8).foldl (fun acc h =>
    (List.finRange 12).foldl (fun acc2 s =>
      if method = "WASSERSTEIN DISTANCE (EMD)" then
        acc2 + dW (fun v => q h s v) (fun v => c h s v)
      else if method = "ENERGY DISTANCE" then
        acc2 + dE (fun v => q h s v) (fun v => c h s v)
      else acc2) acc) 0

/-- The HSV running-best update of lines 449-455: seeded by the first entry,
a later entry replaces the best only on a strictly smaller score
(both HSV methods minimize). -/
def hsvUpdateMatch (best entry : String × ℚ) : String × ℚ :=
  if entry.2 < best.2 then entry else best

/-- The HSV winner-selection loop over the scored corpus. -/
def hsvFindMatch : List (String × ℚ) → Option (String × ℚ)
  | [] => none
  | e :: es => some (es.foldl hsvUpdateMatch e)

/-! ### Weighted voting and the shared results array

`histogram_comparison_weigths = {'gray': 1, 'rgb': 5, 'hsv': 8}` (lines
21-25).  `results_array = list()` (line 26) is a class attribute: one list
per process, shared by every `HistogramGenerator` instance; it is embedded
as explicit state.  Votes are appended by `match_histograms` after each
metric run: lines 399-405 for the gray/rgb branch (conditioned on the
`cur_all_model` argument, whose default is `'all'`), lines 457-459 for the
hsv branch (unconditional). -/

/-- The vote weights `histogram_comparison_weigths`. -/
def histogramComparisonWeights (model : String) : ℕ :=
  if model = "gray" then 1 else if model = "rgb" then 5 else 8

/-- Condition of line 341: the gray/rgb branch of `match_histograms` runs. -/
def grayRgbBranchRuns (configModel curAllModel : String) : Bool :=
  configModel = "rgb" ∨ configModel = "gray" ∨
    (curAllModel = "gray" ∧ configModel = "all") ∨
    (curAllModel = "rgb" ∧ configModel = "all")

/-- Condition of line 412: the hsv branch runs (an `elif`, so only when the
gray/rgb branch did not). -/
def hsvBranchRuns (configModel curAllModel : String) : Bool :=
  !grayRgbBranchRuns configModel curAllModel ∧
    (configModel = "hsv" ∨ configModel = "all")

/-- Votes appended after one gray/rgb metric run (lines 399-405): the
winner repeated `histogram_comparison_weigths['gray']` times when
`cur_all_model == "gray"`, `histogram_comparison_weigths['rgb']` times when
`cur_all_model == "rgb"`, and — no `else` branch — nothing otherwise. -/
def votesGrayRgbRun (curAllModel winner : String) : List String :=
  if curAllModel = "gray" then List.replicate (histogramComparisonWeights "gray") winner
  else if curAllModel = "rgb" then List.replicate (histogramComparisonWeights "rgb") winner
  else []

/-- Votes appended after one hsv metric run (lines 457-459): the winner
repeated `histogram_comparison_weigths['hsv']` times, unconditionally. -/
def votesHsvRun (winner : String) : List String :=
  List.replicate (histogramComparisonWeights "hsv") winner

/-- The votes one `match_histograms` call appends to `results_array`, given
the winner of each metric run of the branch that executes: six runs in the
gray/rgb branch (`grayRgbWinners`, one winner per OpenCV method), two in the
hsv branch (`hsvWinners`, one per statistical distance). -/
def matchHistogramsVotes (configModel curAllModel : String)
    (grayRgbWinners hsvWinners : List String) : List String :=
  if grayRgbBranchRuns configModel curAllModel then
    grayRgbWinners.flatMap (votesGrayRgbRun curAllModel)
  else if hsvBranchRuns configModel curAllModel then
    hsvWinners.flatMap votesHsvRun
  else []

/-- One `match_histograms` invocation as observed by `results_array`:
the instance that performs it (irrelevant to the shared list), its
arguments, and the per-metric-run winners it computes. -/
structure MatchCall where
  instanceId : ℕ
  configModel : String
  curAllModel : String
  grayRgbWinners : List String
  hsvWinners : List String

/-- The effect of one `match_histograms` call on the shared
`results_array`: votes are appended (lines 402, 405, 459), never removed. -/
def processCall (results : List String) (call : MatchCall) : List String :=
  results ++ matchHistogramsVotes call.configModel call.curAllModel
    call.grayRgbWinners call.hsvWinners

/-- A sequence of `match_histograms` invocations, possibly by different
`HistogramGenerator` instances, acting on the single process-wide
`results_array`. -/
def runMatchCalls (results : List String) (calls : List MatchCall) : List String :=
  calls.foldl processCall results

/-- `get_results_array` (lines 567-572): returns `self.results_array`, the
shared class attribute, regardless of the instance it is called on. -/
def getResultsArray (results : List String) : List String := results

/-- The generic strict-improvement running-best update, of which both
polarities of `updateMatch` and `hsvUpdateMatch` are instances: with `r b a`
read as "`a` strictly improves on `b`", the entry replaces the best exactly
when it strictly improves on it. -/
def updBy (r : ℚ → ℚ → Prop) [DecidableRel r] (best entry : String × ℚ) :
    String × ℚ :=
  if r best.2 entry.2 then entry else best

end CBVR

namespace CBVR

/-! ### Helper lemmas -/

/-- Characterization of the seeded strict-improvement fold: the result splits
the scanned list as `pre ++ best :: post` where the best strictly improves on
every earlier entry (so ties keep the earlier entry) and no entry of the list
strictly improves on the best. -/
theorem updBy_foldl_spec (r : ℚ → ℚ → Prop) [DecidableRel r]
    (hirr : ∀ x, ¬r x x)
    (htrans : ∀ x y z, r x y → r y z → r x z)
    (htri : ∀ x y, r x y ∨ x = y ∨ r y x)
    (e : String × ℚ) (es : List (String × ℚ)) :
    ∃ pre post,
      e :: es = pre ++ (es.foldl (updBy r) e) :: post ∧
      (∀ x ∈ pre, r x.2 (es.foldl (updBy r) e).2) ∧
      ∀ x ∈ e :: es, ¬r (es.foldl (updBy r) e).2 x.2 := by
  induction es generalizing e with
  | nil =>
    refine ⟨[], [], rfl, by simp, ?_⟩
    intro x hx
    rw [List.mem_singleton] at hx
    subst hx
    exact hirr _
  | cons a es ih =>
    rw [List.foldl_cons]
    by_cases hr : r e.2 a.2
    · have hupd : updBy r e a = a := if_pos hr
      rw [hupd]
      obtain ⟨pre, post, hdec, hpre, hall⟩ := ih a
      have hwa : ¬r (es.foldl (updBy r) a).2 a.2 := hall a (by simp)
      have hew : r e.2 (es.foldl (updBy r) a).2 := by
        rcases htri (es.foldl (updBy r) a).2 a.2 with h | h | h
        · exact absurd h hwa
        · rw [h]; exact hr
        · exact htrans _ _ _ hr h
      refine ⟨e :: pre, post, ?_, ?_, ?_⟩
      · rw [List.cons_append, ← hdec]
      · intro x hx
        rcases List.mem_cons.1 hx with h | h
        · rw [h]; exact hew
        · exact hpre x h
      · intro x hx
        rcases List.mem_cons.1 hx with h | h
        · rw [h]; exact fun hcon => hirr _ (htrans _ _ _ hcon hew)
        · exact hall x h
    · have hupd : updBy r e a = e := if_neg hr
      rw [hupd]
      obtain ⟨pre, post, hdec, hpre, hall⟩ := ih e
      cases pre with
      | nil =>
        rw [List.nil_append] at hdec
        have h1 : e = es.foldl (updBy r) e := (List.cons.injEq _ _ _ _ ▸ hdec).1
        refine ⟨[], a :: es, ?_, by simp, ?_⟩
        · rw [List.nil_append, ← h1]
        · intro x hx
          rcases List.mem_cons.1 hx with h | h
          · rw [h, ← h1]; exact hirr _
          · rcases List.mem_cons.1 h with h2 | h2
            · rw [h2, ← h1]; exact hr
            · exact hall x (List.mem_cons_of_mem _ h2)
      | cons p pre₂ =>
        rw [List.cons_append] at hdec
        have h1 : e = p := (List.cons.injEq _ _ _ _ ▸ hdec).1
        have h2 : es = pre₂ ++ (es.foldl (updBy r) e) :: post :=
          (List.cons.injEq _ _ _ _ ▸ hdec).2
        have hew : r e.2 (es.foldl (updBy r) e).2 := by
          have := hpre p (List.mem_cons_self _ _)
          rw [← h1] at this
          exact this
        have haw : r a.2 (es.foldl (updBy r) e).2 := by
          rcases htri e.2 a.2 with h | h | h
          · exact absurd h hr
          · rw [← h]; exact hew
          · exact htrans _ _ _ h hew
        refine ⟨e :: a :: pre₂, post, ?_, ?_, ?_⟩
        · rw [List.cons_append, List.cons_append, ← h2]
        · intro x hx
          rcases List.mem_cons.1 hx with h | h
          · rw [h]; exact hew
          · rcases List.mem_cons.1 h with h3 | h3
            · rw [h3]; exact haw
            · exact hpre x (List.mem_cons_of_mem _ h3)
        · intro x hx
          rcases List.mem_cons.1 hx with h | h
          · rw [h]; exact fun hcon => hirr _ (htrans _ _ _ hcon hew)
          · rcases List.mem_cons.1 h with h3 | h3
            · rw [h3]; exact fun hcon => hirr _ (htrans _ _ _ hcon haw)
            · exact hall x (List.mem_cons_of_mem _ h3)

/-- For the maximizing metrics `m ∈ {0, 2}` (correlation, intersection) the
running-best update replaces the best exactly on a strictly greater score. -/
theorem updateMatch_eq_max (m : ℕ) (hm : m = 0 ∨ m = 2) :
    updateMatch m = updBy (fun x y : ℚ => x < y) := by
  funext b a
  rcases hm with h | h <;> subst h <;> simp [updateMatch, updBy, GT.gt]

/-- For the minimizing metrics `m ∈ {1, 3, 4, 5}` (chi-square,
bhattacharyya, alternative chi-square, KL divergence) the running-best
update replaces the best exactly on a strictly smaller score. -/
theorem updateMatch_eq_min (m : ℕ) (hm : m = 1 ∨ m = 3 ∨ m = 4 ∨ m = 5) :
    updateMatch m = updBy (fun x y : ℚ => y < x) := by
  funext b a
  rcases hm with h | h | h | h <;> subst h <;> simp [updateMatch, updBy]

/-- The HSV running-best update is the minimizing instance of `updBy`. -/
theorem hsvUpdateMatch_eq_min :
    hsvUpdateMatch = updBy (fun x y : ℚ => y < x) := by
  funext b a
  simp [hsvUpdateMatch, updBy]

/-- Strict `<` on `ℚ` satisfies the three order facts used by
`updBy_foldl_spec`. -/
theorem ratLt_facts :
    (∀ x : ℚ, ¬x < x) ∧ (∀ x y z : ℚ, x < y → y < z → x < z) ∧
      ∀ x y : ℚ, x < y ∨ x = y ∨ y < x :=
  ⟨fun x => lt_irrefl x, fun _ _ _ => lt_trans, fun x y => lt_trichotomy x y⟩

/-- An additive fold over `finRange n` is the finite sum. -/
theorem foldl_add_finRange (n : ℕ) (f : Fin n → ℚ) (a : ℚ) :
    (List.finRange n).foldl (fun acc i => acc + f i) a = a + ∑ i, f i := by
  rw [Fin.sum_univ_def]
  generalize List.finRange n = l
  induction l generalizing a with
  | nil => simp
  | cons x xs ih => rw [List.foldl_cons, ih, List.map_cons, List.sum_cons]; ring

/-- Scaling every entry scales the sum of squares quadratically. -/
theorem sumSq_map_mul (c : ℚ) (xs : List ℚ) :
    sumSq (xs.map (fun x => c * x)) = c * c * sumSq xs := by
  induction xs with
  | nil => simp [sumSq]
  | cons x xs ih =>
    simp only [List.map_cons, sumSq, List.sum_cons] at *
    rw [ih]; ring

/-- Unfolding of the sequential `match_histograms` runs: the shared results
list accumulates, per call, exactly the votes that call appends. -/
theorem runMatchCalls_eq (init : List String) (calls : List MatchCall) :
    runMatchCalls init calls =
      init ++ (calls.map (fun c => matchHistogramsVotes c.configModel
        c.curAllModel c.grayRgbWinners c.hsvWinners)).flatten := by
  induction calls generalizing init with
  | nil => simp [runMatchCalls]
  | cons c cs ih =>
    rw [runMatchCalls, List.foldl_cons]
    rw [show List.foldl processCall (processCall init c) cs
        = runMatchCalls (processCall init c) cs from rfl, ih]
    simp [processCall]

/-! ### Claim theorems -/

/-- Claim C1: for the gray and rgb models, over any non-empty scored corpus,
each of the six metric runs (`m = 0` correlation, `m = 1` chi-square,
`m = 2` intersection, `m = 3` bhattacharyya, `m = 4` alternative chi-square,
`m = 5` Kullback-Leibler divergence — the numeric values of the OpenCV
constants in `histcmp_methods`) determines its winner by that metric's
polarity: correlation and intersection pick an entry of maximum score, the
other four an entry of minimum score, and since the running best is seeded
by the first entry and replaced only on strict improvement, the winner is
the earliest entry attaining the extremum (ties keep the earlier entry). -/
theorem grayRgb_metric_polarity (m : ℕ) (hm : m < 6) (e : String × ℚ)
    (es : List (String × ℚ)) :
    ∃ w pre post, findMatch m (e :: es) = some w ∧ e :: es = pre ++ w :: post ∧
      (if m = 0 ∨ m = 2
       then (∀ x ∈ pre, x.2 < w.2) ∧ ∀ x ∈ e :: es, x.2 ≤ w.2
       else (∀ x ∈ pre, w.2 < x.2) ∧ ∀ x ∈ e :: es, w.2 ≤ x.2) := by
  by_cases hcase : m = 0 ∨ m = 2
  · obtain ⟨pre, post, hdec, hpre, hall⟩ :=
      updBy_foldl_spec (fun x y : ℚ => x < y) ratLt_facts.1 ratLt_facts.2.1
        ratLt_facts.2.2 e es
    refine ⟨es.foldl (updBy (fun x y : ℚ => x < y)) e, pre, post, ?_, hdec, ?_⟩
    · rw [findMatch, updateMatch_eq_max m hcase]
    · rw [if_pos hcase]
      exact ⟨hpre, fun x hx => not_lt.1 (hall x hx)⟩
  · have hmin : m = 1 ∨ m = 3 ∨ m = 4 ∨ m = 5 := by omega
    obtain ⟨pre, post, hdec, hpre, hall⟩ :=
      updBy_foldl_spec (fun x y : ℚ => y < x) ratLt_facts.1
        (fun _ _ _ h1 h2 => lt_trans h2 h1)
        (fun x y => by
          rcases lt_trichotomy x y with h | h | h
          · exact Or.inr (Or.inr h)
          · exact Or.inr (Or.inl h)
          · exact Or.inl h)
        e es
    refine ⟨es.foldl (updBy (fun x y : ℚ => y < x)) e, pre, post, ?_, hdec, ?_⟩
    · rw [findMatch, updateMatch_eq_min m hmin]
    · rw [if_neg hcase]
      exact ⟨hpre, fun x hx => not_lt.1 (hall x hx)⟩

/-- Witness for C1: the correlation run (`m = 0`) on a concrete corpus. -/
theorem grayRgb_metric_polarity_witness :
    (0 : ℕ) < 6 ∧
    (∃ w pre post,
      findMatch 0 (("A", (1 : ℚ)) :: [("B", 2), ("C", 0)]) = some w ∧
      ("A", (1 : ℚ)) :: [("B", 2), ("C", 0)] = pre ++ w :: post ∧
      (if (0 : ℕ) = 0 ∨ (0 : ℕ) = 2
       then (∀ x ∈ pre, x.2 < w.2) ∧
            ∀ x ∈ ("A", (1 : ℚ)) :: [("B", 2), ("C", 0)], x.2 ≤ w.2
       else (∀ x ∈ pre, w.2 < x.2) ∧
            ∀ x ∈ ("A", (1 : ℚ)) :: [("B", 2), ("C", 0)], w.2 ≤ x.2)) :=
  ⟨by norm_num, grayRgb_metric_polarity 0 (by norm_num) ("A", 1) [("B", 2), ("C", 0)]⟩

/-- The two nested accumulation loops over the hue and saturation bins
amount to the double finite sum. -/
theorem hsvLoop_sum (f : Fin 8 → Fin 12 → ℚ) (start : ℚ) :
    (List.finRange 8).foldl (fun acc h => (List.finRange 12).foldl
      (fun acc2 s => acc2 + f h s) acc) start = start + ∑ h, ∑ s, f h s := by
  have hinner : ∀ (acc : ℚ) (h : Fin 8),
      (List.finRange 12).foldl (fun acc2 s => acc2 + f h s) acc
        = acc + ∑ s, f h s := fun acc h => foldl_add_finRange 12 (f h) acc
  simp only [hinner]
  exact foldl_add_finRange 8 (fun h => ∑ s, f h s) start

/-- Claim C4: for the hsv model, each of the two metric scores is the sum,
over all 96 (hue, saturation) bin pairs, of the 1-dimensional distance
(`wasserstein_distance` for the first method, `energy_distance` for the
second) between the two fingerprints' length-3 value-axis slices at that
pair; and for both metrics the winner-selection loop, seeded by the first
corpus entry and updated only on a strictly smaller score, picks the
earliest corpus entry of minimum score. -/
theorem hsv_metric_scores_and_winner
    (dW dE : (Fin 3 → ℚ) → (Fin 3 → ℚ) → ℚ)
    (q c : Fin 8 → Fin 12 → Fin 3 → ℚ)
    (e : String × ℚ) (es : List (String × ℚ)) :
    hsvComparison dW dE "WASSERSTEIN DISTANCE (EMD)" q c
        = (∑ h, ∑ s, dW (fun v => q h s v) (fun v => c h s v)) ∧
    hsvComparison dW dE "ENERGY DISTANCE" q c
        = (∑ h, ∑ s, dE (fun v => q h s v) (fun v => c h s v)) ∧
    ∃ w pre post, hsvFindMatch (e :: es) = some w ∧ e :: es = pre ++ w :: post ∧
      (∀ x ∈ pre, w.2 < x.2) ∧ ∀ x ∈ e :: es, w.2 ≤ x.2 := by
  refine ⟨?_, ?_, ?_⟩
  · unfold hsvComparison
    simp only [String.reduceEq, if_true, if_pos]
    rw [hsvLoop_sum (fun h s => dW (fun v => q h s v) (fun v => c h s v)) 0,
      zero_add]
  · unfold hsvComparison
    simp only [String.reduceEq, if_true, if_false, reduceCtorEq]
    rw [hsvLoop_sum (fun h s => dE (fun v => q h s v) (fun v => c h s v)) 0,
      zero_add]
  · obtain ⟨pre, post, hdec, hpre, hall⟩ :=
      updBy_foldl_spec (fun x y : ℚ => y < x) ratLt_facts.1
        (fun _ _ _ h1 h2 => lt_trans h2 h1)
        (fun x y => by
          rcases lt_trichotomy x y with h | h | h
          · exact Or.inr (Or.inr h)
          · exact Or.inr (Or.inl h)
          · exact Or.inl h)
        e es
    refine ⟨es.foldl (updBy (fun x y : ℚ => y < x)) e, pre, post, ?_, hdec,
      hpre, fun x hx => not_lt.1 (hall x hx)⟩
    rw [hsvFindMatch, hsvUpdateMatch_eq_min]

/-- Witness for C4: both scores and the winner on concrete inputs. -/
theorem hsv_metric_scores_and_winner_witness :
    hsvComparison (fun a b => a 0 - b 0) (fun a b => b 0 - a 0)
        "WASSERSTEIN DISTANCE (EMD)" (fun _ _ _ => 2) (fun _ _ _ => 1)
        = (∑ h : Fin 8, ∑ s : Fin 12,
            (fun a b : Fin 3 → ℚ => a 0 - b 0)
              (fun v => (fun _ _ _ => (2 : ℚ)) h s v)
              (fun v => (fun _ _ _ => (1 : ℚ)) h s v)) ∧
    hsvComparison (fun a b => a 0 - b 0) (fun a b => b 0 - a 0)
        "ENERGY DISTANCE" (fun _ _ _ => 2) (fun _ _ _ => 1)
        = (∑ h : Fin 8, ∑ s : Fin 12,
            (fun a b : Fin 3 → ℚ => b 0 - a 0)
              (fun v => (fun _ _ _ => (2 : ℚ)) h s v)
              (fun v => (fun _ _ _ => (1 : ℚ)) h s v)) ∧
    ∃ w pre post,
      hsvFindMatch (("A", (3 : ℚ)) :: [("B", 1), ("C", 1)]) = some w ∧
      ("A", (3 : ℚ)) :: [("B", 1), ("C", 1)] = pre ++ w :: post ∧
      (∀ x ∈ pre, w.2 < x.2) ∧
      ∀ x ∈ ("A", (3 : ℚ)) :: [("B", 1), ("C", 1)], w.2 ≤ x.2 :=
  hsv_metric_scores_and_winner (fun a b => a 0 - b 0) (fun a b => b 0 - a 0)
    (fun _ _ _ => 2) (fun _ _ _ => 1) ("A", 3) [("B", 1), ("C", 1)]

/-- Claim C5: the shot boundary detector is a two-state machine starting
BELOW (`is_under_threshold = True`), threshold 10: a boundary event is
emitted exactly when the divergence exceeds 10 while BELOW (moving to
ABOVE); it moves back to BELOW, without an event, when the divergence drops
under 10 while ABOVE; in all other cases neither the state nor the event
output changes; and the divergence sequence `[2, 15, 20, 3, 16]` yields
exactly the two events at 1-based pair indices 2 and 5. -/
theorem shot_boundary_hysteresis :
    (∀ (isUnder : Bool) (d : ℚ),
      (isUnder = true → d > 10 → sbStep 10 isUnder d = (false, true)) ∧
      (isUnder = false → d < 10 → sbStep 10 isUnder d = (true, false)) ∧
      (¬(isUnder = true ∧ d > 10) → ¬(isUnder = false ∧ d < 10) →
        sbStep 10 isUnder d = (isUnder, false))) ∧
    sbEvents 10 [2, 15, 20, 3, 16] = [2, 5] := by
  constructor
  · intro isUnder d
    refine ⟨?_, ?_, ?_⟩
    · intro h1 h2
      subst h1
      simp [sbStep, h2]
    · intro h1 h2
      subst h1
      simp [sbStep, h2]
    · intro h1 h2
      cases isUnder with
      | false =>
        have hd : ¬d < 10 := fun hc => h2 ⟨rfl, hc⟩
        simp [sbStep, hd]
      | true =>
        have hd : ¬d > 10 := fun hc => h1 ⟨rfl, hc⟩
        by_cases hlt : d < 10 <;> simp [sbStep, hd, hlt]
  · decide

/-- Witness for C5: the emitting transition at a concrete divergence, and
the concrete event trace. -/
theorem shot_boundary_hysteresis_witness :
    sbStep 10 true 15 = (false, true) ∧
      sbEvents 10 [2, 15, 20, 3, 16] = [2, 5] :=
  ⟨(shot_boundary_hysteresis.1 true 15).1 rfl (by norm_num),
    shot_boundary_hysteresis.2⟩

/-- Claim C6: for every total frame count `T ≥ 1` and frame rate `F ≥ 1`,
the frame sampler returns exactly the indices `1, 1 + ⌈F⌉, 1 + 2⌈F⌉, …` not
exceeding `T`; the output is non-empty, starts at 1, is strictly increasing,
and every element (in particular the last) is at most `T`. -/
theorem frame_sampler_spec (T : ℕ) (F : ℚ) (hT : 1 ≤ T) (hF : 1 ≤ F) :
    getFramesToProcess T F ≠ [] ∧
    (getFramesToProcess T F).head? = some 1 ∧
    List.Sorted (· < ·) (getFramesToProcess T F) ∧
    (∀ x ∈ getFramesToProcess T F, x ≤ T) ∧
    ∀ x, x ∈ getFramesToProcess T F ↔
      ∃ k, x = 1 + k * (Int.ceil F).toNat ∧ x ≤ T := by
  have hc1 : (1 : ℤ) ≤ Int.ceil F := by
    have h := Int.ceil_le_ceil (α := ℚ) hF
    rwa [Int.ceil_one] at h
  have hc0 : 0 < (Int.ceil F).toNat := by omega
  have hn : (T + 1 - 1 + (Int.ceil F).toNat - 1) / (Int.ceil F).toNat
      = (T - 1) / (Int.ceil F).toNat + 1 := by
    have h : T + 1 - 1 + (Int.ceil F).toNat - 1
        = (T - 1) + (Int.ceil F).toNat := by omega
    rw [h, Nat.add_div_right _ hc0]
  have hmem : ∀ x, x ∈ getFramesToProcess T F ↔
      ∃ k, x = 1 + k * (Int.ceil F).toNat ∧ x ≤ T := by
    intro x
    unfold getFramesToProcess pyRange
    rw [hn]
    constructor
    · intro hx
      rw [List.mem_map] at hx
      obtain ⟨k, hk, hkx⟩ := hx
      rw [List.mem_range] at hk
      refine ⟨k, hkx.symm, ?_⟩
      have hk2 : k ≤ (T - 1) / (Int.ceil F).toNat := by omega
      have h3 := (Nat.le_div_iff_mul_le hc0).1 hk2
      omega
    · rintro ⟨k, rfl, hle⟩
      rw [List.mem_map]
      refine ⟨k, ?_, rfl⟩
      rw [List.mem_range]
      have h3 : k * (Int.ceil F).toNat ≤ T - 1 := by omega
      have h4 := (Nat.le_div_iff_mul_le hc0).2 h3
      omega
  refine ⟨?_, ?_, ?_, ?_, hmem⟩
  · exact List.ne_nil_of_mem ((hmem 1).2 ⟨0, by simp, hT⟩)
  · show (pyRange 1 (T + 1) (Int.ceil F).toNat).head? = some 1
    unfold pyRange
    rw [hn, List.range_succ_eq_map, List.map_cons, List.head?_cons]
    simp
  · show List.Sorted (· < ·) (pyRange 1 (T + 1) (Int.ceil F).toNat)
    unfold pyRange
    exact List.Pairwise.map _
      (fun a b hab => by
        have := mul_lt_mul_of_pos_right hab hc0
        omega)
      (List.sorted_lt_range _)
  · intro x hx
    obtain ⟨k, _, hle⟩ := (hmem x).1 hx
    exact hle

/-- Witness for C6: `T = 5`, `F = 3/2` (so the stride is `⌈3/2⌉ = 2` and the
sampled frames are `[1, 3, 5]`). -/
theorem frame_sampler_spec_witness :
    (1 : ℕ) ≤ 5 ∧ (1 : ℚ) ≤ 3 / 2 ∧
    (getFramesToProcess 5 (3 / 2) ≠ [] ∧
     (getFramesToProcess 5 (3 / 2)).head? = some 1 ∧
     List.Sorted (· < ·) (getFramesToProcess 5 (3 / 2)) ∧
     (∀ x ∈ getFramesToProcess 5 (3 / 2), x ≤ 5) ∧
     ∀ x, x ∈ getFramesToProcess 5 (3 / 2) ↔
       ∃ k, x = 1 + k * (Int.ceil (3 / 2 : ℚ)).toNat ∧ x ≤ 5) :=
  ⟨by norm_num, by norm_num,
    frame_sampler_spec 5 (3 / 2) (by norm_num) (by norm_num)⟩

/-- Counterexample to C2 as stated: the grayscale/per-channel aggregator
over a single 256-bin per-frame histogram produces a 255-entry fingerprint,
not one of the per-frame shape `flatHistBins = 256` (the loop
`for i in range(0, 255)` over `np.zeros(shape=(255, 1))` drops the last
bin). -/
theorem flat_fingerprint_shape_counterexample :
    (averageFlatFingerprint [fun _ => 1]).map List.length = some 255 ∧
      (255 : ℕ) ≠ flatHistBins := by
  constructor
  · rw [averageFlatFingerprint, if_neg (by simp)]
    rw [Option.map_some', List.length_map, List.length_finRange]
  · decide

/-- Claim C2 (amended): for every non-empty list of per-frame histograms,
the grayscale / per-channel aggregator produces a fingerprint of 255 bins
(one fewer than the 256-bin per-frame histograms: the last bin is dropped),
each equal to the sum of that bin across frames divided by the frame count;
the HSV aggregator produces the exact per-frame `8 × 12 × 3` shape with the
same averaging of every bin. -/
theorem fingerprint_averaging
    (hists : List (Fin 256 → ℚ)) (hne : hists ≠ [])
    (hsvHists : List (Fin 8 → Fin 12 → Fin 3 → ℚ)) (hsvne : hsvHists ≠ []) :
    (∃ fp, averageFlatFingerprint hists = some fp ∧ fp.length = 255 ∧
      ∀ (i : ℕ) (hi : i < 255),
        fp[i]? = some ((hists.map (fun h => h ⟨i, by omega⟩)).sum /
          hists.length)) ∧
    ∃ g, averageHsvFingerprint hsvHists = some g ∧
      ∀ h s v, g h s v = (hsvHists.map (fun x => x h s v)).sum /
        hsvHists.length := by
  have hl : ¬hists.length = 0 := fun h => hne (List.length_eq_zero.1 h)
  have hl2 : ¬hsvHists.length = 0 := fun h => hsvne (List.length_eq_zero.1 h)
  constructor
  · refine ⟨_, by rw [averageFlatFingerprint, if_neg hl], by simp, ?_⟩
    intro i hi
    rw [List.getElem?_map, List.getElem?_eq_getElem (by simpa using hi),
      List.getElem_finRange]
    simp [Fin.castLE, Fin.cast]
  · refine ⟨_, by rw [averageHsvFingerprint, if_neg hl2], fun h s v => rfl⟩

/-- Witness for the amended C2: a single constant per-frame histogram for
each model. -/
theorem fingerprint_averaging_witness :
    ([fun _ => 1] : List (Fin 256 → ℚ)) ≠ [] ∧
    ([fun _ _ _ => 1] : List (Fin 8 → Fin 12 → Fin 3 → ℚ)) ≠ [] ∧
    ((∃ fp, averageFlatFingerprint [fun _ => 1] = some fp ∧
        fp.length = 255 ∧
        ∀ (i : ℕ) (hi : i < 255),
          fp[i]? = some ((([fun _ => 1] : List (Fin 256 → ℚ)).map
            (fun h => h ⟨i, by omega⟩)).sum /
              ([fun _ => 1] : List (Fin 256 → ℚ)).length)) ∧
      ∃ g, averageHsvFingerprint [fun _ _ _ => 1] = some g ∧
        ∀ h s v, g h s v =
          (([fun _ _ _ => 1] : List (Fin 8 → Fin 12 → Fin 3 → ℚ)).map
            (fun x => x h s v)).sum /
            ([fun _ _ _ => 1] : List (Fin 8 → Fin 12 → Fin 3 → ℚ)).length) :=
  ⟨by simp, by simp,
    fingerprint_averaging [fun _ => 1] (by simp) [fun _ _ _ => 1] (by simp)⟩

/-- The `%f` fixed-point representation of a value differs from it by at
most half a unit in the last (sixth) decimal place. -/
theorem quantize6_close (v : ℚ) : |quantize6 v - v| ≤ 1 / 2000000 := by
  unfold quantize6
  have h := abs_sub_round (α := ℚ) (v * 1000000)
  have heq : ((round (v * 1000000) : ℤ) : ℚ) / 1000000 - v
      = (((round (v * 1000000) : ℤ) : ℚ) - v * 1000000) / 1000000 := by
    ring
  rw [heq, abs_div, abs_sub_comm]
  rw [show |(1000000 : ℚ)| = 1000000 by norm_num]
  have h2 := (div_le_div_iff_of_pos_right
    (show (0 : ℚ) < 1000000 by norm_num)).2 h
  exact h2.trans_eq (by norm_num)

/-- Length of a `flatMap` whose blocks all have the same length. -/
theorem length_flatMap_const {α β : Type} (l : List α) (f : α → List β)
    (k : ℕ) (hf : ∀ a, (f a).length = k) :
    (l.flatMap f).length = l.length * k := by
  induction l with
  | nil => simp
  | cons a as ih =>
    rw [List.flatMap_cons, List.length_append, ih, hf, List.length_cons]
    ring

/-- Indexing into a `flatMap` whose blocks all have the same length `k`:
position `i * k + j` lands at offset `j` of block `i`. -/
theorem flatMap_getElem?_const {α β : Type} (f : α → List β) (k : ℕ)
    (hf : ∀ a, (f a).length = k) :
    ∀ (l : List α) (i j : ℕ) (hi : i < l.length) (_ : j < k),
      (l.flatMap f)[i * k + j]? = (f (l.get ⟨i, hi⟩))[j]? := by
  intro l
  induction l with
  | nil => intro i j hi; simp at hi
  | cons a as ih =>
    intro i j hi hj
    cases i with
    | zero =>
      simp only [Nat.zero_mul, Nat.zero_add, List.get_eq_getElem,
        List.getElem_cons_zero]
      rw [List.flatMap_cons, List.getElem?_append_left (by rw [hf]; exact hj)]
    | succ i' =>
      rw [List.flatMap_cons]
      rw [List.getElem?_append_right (by rw [hf, Nat.succ_mul]; omega)]
      have hsub : (i' + 1) * k + j - (f a).length = i' * k + j := by
        rw [hf, Nat.succ_mul]; omega
      rw [hsub, ih i' j (by simpa using hi) hj]
      simp

/-- The flat HSV file content of one hue slice holds `12 × 3 = 36`
values. -/
theorem hsvSliceLength (fp : Fin 8 → Fin 12 → Fin 3 → ℚ) (hh : Fin 8) :
    ((List.finRange 12).flatMap
      (fun s => (List.finRange 3).map (fun v => fp hh s v))).length = 36 := by
  rw [length_flatMap_const _ _ 3 (fun _ => by simp)]
  simp

/-- The whole flat HSV file content holds `8 × 36 = 288` values. -/
theorem saveHsv_length (fp : Fin 8 → Fin 12 → Fin 3 → ℚ) :
    (saveHsvFingerprint fp).length = 288 := by
  rw [saveHsvFingerprint, length_flatMap_const _ _ 36 (hsvSliceLength fp)]
  simp

/-- Reading the flat HSV file content at row-major position
`h * 36 + (s * 3 + v)` recovers bin `(h, s, v)`. -/
theorem saveHsv_getElem? (fp : Fin 8 → Fin 12 → Fin 3 → ℚ)
    (h : Fin 8) (s : Fin 12) (v : Fin 3) :
    (saveHsvFingerprint fp)[(h : ℕ) * 36 + ((s : ℕ) * 3 + (v : ℕ))]?
      = some (fp h s v) := by
  unfold saveHsvFingerprint
  rw [flatMap_getElem?_const _ 36 (hsvSliceLength fp) _ (h : ℕ)
    ((s : ℕ) * 3 + (v : ℕ)) (by simp) (by
      have := s.isLt; have := v.isLt; omega)]
  simp only [List.get_eq_getElem, List.getElem_finRange, Fin.cast_mk, Fin.eta]
  rw [flatMap_getElem?_const _ 3 (fun _ => by simp) _ (s : ℕ) (v : ℕ)
    (by simp) v.isLt]
  simp only [List.get_eq_getElem, List.getElem_finRange, Fin.cast_mk, Fin.eta]
  rw [List.getElem?_map,
    List.getElem?_eq_getElem (by simpa using v.isLt)]
  simp only [List.getElem_finRange, Fin.cast_mk, Fin.eta, Option.map_some']
  rfl

/-- Claim C3: loading a fingerprint saved by the store returns a
fingerprint of the same length whose every entry is within the fixed-point
text precision (half of `1e-6` for the `%f` format) of the original; and
the HSV loader reconstitutes from the slice-separated flat text exactly the
original `(8, 12, 3)`-shaped fingerprint. -/
theorem fingerprint_store_roundtrip (fp : List ℚ)
    (hsvFp : Fin 8 → Fin 12 → Fin 3 → ℚ) :
    (loadFlatFingerprint (saveFlatFingerprint fp)).length = fp.length ∧
    (∀ (i : ℕ) (hi : i < fp.length),
      |(loadFlatFingerprint (saveFlatFingerprint fp))[i]?.getD 0 -
        fp[i]?.getD 0| ≤ 1 / 2000000) ∧
    loadHsvFingerprint (saveHsvFingerprint hsvFp) = some hsvFp := by
  refine ⟨by simp [loadFlatFingerprint, saveFlatFingerprint], ?_, ?_⟩
  · intro i hi
    rw [loadFlatFingerprint, saveFlatFingerprint, List.getElem?_map,
      List.getElem?_eq_getElem hi, Option.map_some', Option.getD_some,
      Option.getD_some]
    exact quantize6_close _
  · rw [loadHsvFingerprint, dif_pos (saveHsv_length hsvFp)]
    congr 1
    funext h s v
    rw [List.get_eq_getElem]
    have hassoc : (h : ℕ) * 36 + (s : ℕ) * 3 + (v : ℕ)
        = (h : ℕ) * 36 + ((s : ℕ) * 3 + (v : ℕ)) := by omega
    simp only [hassoc]
    have hidx : (h : ℕ) * 36 + ((s : ℕ) * 3 + (v : ℕ))
        < (saveHsvFingerprint hsvFp).length := by
      rw [saveHsv_length]
      have := h.isLt; have := s.isLt; have := v.isLt; omega
    have h1 := saveHsv_getElem? hsvFp h s v
    rw [List.getElem?_eq_getElem hidx] at h1
    exact Option.some.inj h1

/-- Witness for C3 on concrete fingerprints. -/
theorem fingerprint_store_roundtrip_witness :
    (loadFlatFingerprint (saveFlatFingerprint [1 / 3])).length =
      ([1 / 3] : List ℚ).length ∧
    (∀ (i : ℕ) (hi : i < ([1 / 3] : List ℚ).length),
      |(loadFlatFingerprint (saveFlatFingerprint [1 / 3]))[i]?.getD 0 -
        ([1 / 3] : List ℚ)[i]?.getD 0| ≤ 1 / 2000000) ∧
    loadHsvFingerprint (saveHsvFingerprint (fun h _ _ => (h.val : ℚ)))
      = some (fun h _ _ => (h.val : ℚ)) :=
  fingerprint_store_roundtrip [1 / 3] (fun h _ _ => (h.val : ℚ))

/-- Counterexample to C7 as stated: a standalone gray run
(`config.model == "gray"` with the default argument
`cur_all_model == "all"`) executes the gray/rgb comparison branch, yet its
six metric-run winners contribute zero votes — not one vote per metric run
— because the vote-appending conditions test `cur_all_model`, which is
`"all"` in a standalone invocation. -/
theorem standalone_gray_votes_counterexample :
    grayRgbBranchRuns "gray" "all" = true ∧
    matchHistogramsVotes "gray" "all" ["w", "w", "w", "w", "w", "w"] [] = [] ∧
    (matchHistogramsVotes "gray" "all" ["w", "w", "w", "w", "w", "w"] []).length
      ≠ 6 * histogramComparisonWeights "gray" := by
  refine ⟨by decide, by decide, by decide⟩

/-- Claim C7 (amended): the votes a metric run appends are fixed per branch
but determined by the `cur_all_model` argument, not by the model that
actually ran: one vote per gray/rgb metric run when `cur_all_model` is
`"gray"`, five when it is `"rgb"`, and none otherwise (in particular zero
in a standalone gray or rgb run invoked with the default
`cur_all_model='all'`); every appended vote is the run's winner; the hsv
branch appends eight votes per metric run unconditionally; and one
`match_histograms` call accumulates these counts over all its metric
runs. -/
theorem vote_weights_by_branch (configModel curAllModel winner : String)
    (gws hws : List String) :
    votesGrayRgbRun curAllModel winner =
      (if curAllModel = "gray" then List.replicate 1 winner
       else if curAllModel = "rgb" then List.replicate 5 winner
       else []) ∧
    (∀ x ∈ votesGrayRgbRun curAllModel winner, x = winner) ∧
    votesHsvRun winner = List.replicate 8 winner ∧
    (∀ x ∈ votesHsvRun winner, x = winner) ∧
    (matchHistogramsVotes configModel curAllModel gws hws).length =
      (if grayRgbBranchRuns configModel curAllModel then
        gws.length * (if curAllModel = "gray" then 1
          else if curAllModel = "rgb" then 5 else 0)
       else if hsvBranchRuns configModel curAllModel then hws.length * 8
       else 0) := by
  have hlen : ∀ w : String, (votesGrayRgbRun curAllModel w).length =
      (if curAllModel = "gray" then 1
       else if curAllModel = "rgb" then 5 else 0) := by
    intro w
    unfold votesGrayRgbRun histogramComparisonWeights
    by_cases h1 : curAllModel = "gray"
    · simp [h1]
    · by_cases h2 : curAllModel = "rgb" <;> simp [h1, h2]
  refine ⟨?_, ?_, rfl, ?_, ?_⟩
  · unfold votesGrayRgbRun histogramComparisonWeights
    by_cases h1 : curAllModel = "gray"
    · simp [h1]
    · by_cases h2 : curAllModel = "rgb" <;> simp [h1, h2]
  · intro x hx
    unfold votesGrayRgbRun at hx
    by_cases h1 : curAllModel = "gray"
    · rw [if_pos h1] at hx
      exact List.eq_of_mem_replicate hx
    · rw [if_neg h1] at hx
      by_cases h2 : curAllModel = "rgb"
      · rw [if_pos h2] at hx
        exact List.eq_of_mem_replicate hx
      · rw [if_neg h2] at hx
        simp at hx
  · intro x hx
    exact List.eq_of_mem_replicate hx
  · unfold matchHistogramsVotes
    by_cases hb : grayRgbBranchRuns configModel curAllModel
    · rw [if_pos hb, if_pos hb,
        length_flatMap_const gws _ _ (fun w => hlen w)]
    · rw [if_neg hb, if_neg hb]
      by_cases hb2 : hsvBranchRuns configModel curAllModel
      · rw [if_pos hb2, if_pos hb2,
          length_flatMap_const hws _ 8
            (fun w => by simp [votesHsvRun, histogramComparisonWeights])]
      · rw [if_neg hb2, if_neg hb2]
        rfl

/-- Witness for the amended C7: an `all`-mode rgb sub-run with two corpus
winners per metric list. -/
theorem vote_weights_by_branch_witness :
    votesGrayRgbRun "rgb" "w" =
      (if ("rgb" : String) = "gray" then List.replicate 1 "w"
       else if ("rgb" : String) = "rgb" then List.replicate 5 "w"
       else []) ∧
    (∀ x ∈ votesGrayRgbRun "rgb" "w", x = "w") ∧
    votesHsvRun "w" = List.replicate 8 "w" ∧
    (∀ x ∈ votesHsvRun "w", x = "w") ∧
    (matchHistogramsVotes "all" "rgb" ["a", "b"] ["c"]).length =
      (if grayRgbBranchRuns "all" "rgb" then
        (["a", "b"] : List String).length * (if ("rgb" : String) = "gray" then 1
          else if ("rgb" : String) = "rgb" then 5 else 0)
       else if hsvBranchRuns "all" "rgb" then (["c"] : List String).length * 8
       else 0) :=
  vote_weights_by_branch "all" "rgb" "w" ["a", "b"] ["c"]

/-- Counterexample to C8 as stated: `cv2.normalize` is called with its
default L2 normalization, so the plain bin sum is not a content-independent
constant: the histogram `[3, 4, 0, …]` normalizes to sum `7/5` while
`[1, 0, …]` normalizes to sum `1`. -/
theorem normalize_sum_counterexample :
    IsL2Scale (1 / 5) (3 :: 4 :: List.replicate 254 0) ∧
    IsL2Scale 1 (1 :: List.replicate 255 0) ∧
    (l2NormalizeWith (1 / 5) (3 :: 4 :: List.replicate 254 0)).sum = 7 / 5 ∧
    (l2NormalizeWith 1 (1 :: List.replicate 255 0)).sum = 1 ∧
    (7 / 5 : ℚ) ≠ 1 := by
  refine ⟨⟨by norm_num, ?_⟩, ⟨by norm_num, ?_⟩, ?_, ?_, by norm_num⟩
  · simp only [sumSq, List.map_cons, List.map_replicate, List.sum_cons,
      List.sum_replicate, mul_zero, smul_zero, add_zero]
    norm_num
  · simp only [sumSq, List.map_cons, List.map_replicate, List.sum_cons,
      List.sum_replicate, mul_zero, smul_zero, add_zero]
    norm_num
  · simp only [l2NormalizeWith, List.map_cons, List.map_replicate,
      List.sum_cons, List.sum_replicate, mul_zero, smul_zero, add_zero]
    norm_num
  · simp only [l2NormalizeWith, List.map_cons, List.map_replicate,
      List.sum_cons, List.sum_replicate, mul_zero, smul_zero, add_zero]
    norm_num

/-- Claim C8 (amended): every emitted histogram (the `cv2.normalize`d
`calcHist` output, for grayscale, each RGB channel, and HSV alike) has
non-negative bins, and the content-independent constant is the Euclidean
norm: the sum of squared bins is 1; the plain bin sum varies with frame
content. -/
theorem normalize_l2_invariant (c : ℚ) (xs : List ℚ)
    (hscale : IsL2Scale c xs) (hnn : ∀ x ∈ xs, 0 ≤ x) :
    (∀ y ∈ l2NormalizeWith c xs, 0 ≤ y) ∧
    sumSq (l2NormalizeWith c xs) = 1 := by
  constructor
  · intro y hy
    rw [l2NormalizeWith, List.mem_map] at hy
    obtain ⟨x, hx, hxy⟩ := hy
    rw [← hxy]
    exact mul_nonneg hscale.1.le (hnn x hx)
  · rw [l2NormalizeWith, sumSq_map_mul]
    exact hscale.2

/-- Witness for the amended C8: a one-hot 256-bin histogram. -/
theorem normalize_l2_invariant_witness :
    IsL2Scale 1 (1 :: List.replicate 255 0) ∧
    (∀ x ∈ (1 : ℚ) :: List.replicate 255 0, 0 ≤ x) ∧
    ((∀ y ∈ l2NormalizeWith 1 ((1 : ℚ) :: List.replicate 255 0), 0 ≤ y) ∧
      sumSq (l2NormalizeWith 1 ((1 : ℚ) :: List.replicate 255 0)) = 1) := by
  have h1 : IsL2Scale 1 ((1 : ℚ) :: List.replicate 255 0) := by
    refine ⟨by norm_num, ?_⟩
    simp only [sumSq, List.map_cons, List.map_replicate, List.sum_cons,
      List.sum_replicate, mul_zero, smul_zero, add_zero]
    norm_num
  have h2 : ∀ x ∈ (1 : ℚ) :: List.replicate 255 0, 0 ≤ x := by
    intro x hx
    rcases List.mem_cons.1 hx with h | h
    · rw [h]; norm_num
    · rw [List.eq_of_mem_replicate h]
  exact ⟨h1, h2, normalize_l2_invariant 1 _ h1 h2⟩

/-- Claim C9: on zero sampled frames both aggregators hit the division
fault (`bin_sum / len(hist)` with an empty frame list, a Python
`ZeroDivisionError`, modelled by `none`): nothing in the pipeline detects
the condition before the averaging loops run. -/
theorem zero_frames_division_fault :
    averageFlatFingerprint [] = none ∧ averageHsvFingerprint [] = none :=
  ⟨rfl, rfl⟩

/-- Claim C10: `results_array` is one process-wide list (a class attribute
shared by every `HistogramGenerator` instance, embedded as a single
threaded state): a sequence of `match_histograms` calls, by any instances,
appends each call's votes in order; nothing ever removes elements (the
prior contents stay a prefix); the result is independent of which instances
performed the calls; and `get_results_array` returns the whole accumulated
list. -/
theorem results_array_shared_accumulation (init : List String)
    (calls : List MatchCall) :
    getResultsArray (runMatchCalls init calls) =
      init ++ (calls.map (fun c => matchHistogramsVotes c.configModel
        c.curAllModel c.grayRgbWinners c.hsvWinners)).flatten ∧
    init <+: runMatchCalls init calls ∧
    ∀ f : ℕ → ℕ,
      runMatchCalls init (calls.map (fun c => MatchCall.mk (f c.instanceId)
        c.configModel c.curAllModel c.grayRgbWinners c.hsvWinners))
        = runMatchCalls init calls := by
  refine ⟨runMatchCalls_eq init calls, ?_, ?_⟩
  · rw [runMatchCalls_eq]
    exact ⟨_, rfl⟩
  · intro f
    rw [runMatchCalls_eq, runMatchCalls_eq, List.map_map]
    rfl

/-- Witness for C10: two calls by different instances. -/
theorem results_array_shared_accumulation_witness :
    getResultsArray (runMatchCalls ["q"]
      [MatchCall.mk 0 "all" "gray" ["w", "w", "w", "w", "w", "w"] [],
       MatchCall.mk 1 "all" "hsv" [] ["v", "v"]]) =
      ["q"] ++ (([MatchCall.mk 0 "all" "gray" ["w", "w", "w", "w", "w", "w"] [],
        MatchCall.mk 1 "all" "hsv" [] ["v", "v"]] : List MatchCall).map
          (fun c => matchHistogramsVotes c.configModel c.curAllModel
            c.grayRgbWinners c.hsvWinners)).flatten ∧
    (["q"] : List String) <+: runMatchCalls ["q"]
      [MatchCall.mk 0 "all" "gray" ["w", "w", "w", "w", "w", "w"] [],
       MatchCall.mk 1 "all" "hsv" [] ["v", "v"]] ∧
    ∀ f : ℕ → ℕ,
      runMatchCalls ["q"]
        (([MatchCall.mk 0 "all" "gray" ["w", "w", "w", "w", "w", "w"] [],
          MatchCall.mk 1 "all" "hsv" [] ["v", "v"]] : List MatchCall).map
            (fun c => MatchCall.mk (f c.instanceId) c.configModel
              c.curAllModel c.grayRgbWinners c.hsvWinners))
        = runMatchCalls ["q"]
          [MatchCall.mk 0 "all" "gray" ["w", "w", "w", "w", "w", "w"] [],
           MatchCall.mk 1 "all" "hsv" [] ["v", "v"]] :=
  results_array_shared_accumulation ["q"]
    [MatchCall.mk 0 "all" "gray" ["w", "w", "w", "w", "w", "w"] [],
     MatchCall.mk 1 "all" "hsv" [] ["v", "v"]]

end CBVR
